import Mathlib

/-!
Verification of the T-invariant consumption engine of this repository.

The engine lives in `invariant_checker/invariant_checker_core.py`
(canonical module) and `scripts/invariant_checker.py` (historical
variant).  Strings are modelled as `List Char`.

The Python regular expression `T_INVARIANT_REGEX`

  `(T0)(.*?)(T1)(.*?)((T2)(.*?)(T3)(.*?)(T4)|(T5)(.*?)(T6)|(T7)(.*?)(T8)(.*?)(T9)(.*?)(T10))(.*?)(T11)`

compiled with `re.S` is embedded as an explicit backtracking matcher
implementing Python's documented semantics: `re.search` tries start
offsets left to right; a lazy gap `(.*?)` tries lengths in ascending
order; an alternation tries its branches left to right, and on failure
of a later part the engine backtracks into earlier lazy gaps.  The
matcher returns the full capture structure (`Loc`): the text before the
match, every gap group, the branch that matched and the text after the
match.  The pattern `_PATTERN` of the historical script is the same
pattern with a non-capturing alternation group `(?:...)`; its matching
behaviour and its gap captures are identical (only group numbering
shifts), so a single matcher embeds both regexes.
-/

set_option maxHeartbeats 1000000
set_option maxRecDepth 8000

namespace TInv

/-- Streams are character lists (Python `str`). -/
abbrev Str := List Char

def litT0 : Str := ['T', '0']
def litT1 : Str := ['T', '1']
def litT2 : Str := ['T', '2']
def litT3 : Str := ['T', '3']
def litT4 : Str := ['T', '4']
def litT5 : Str := ['T', '5']
def litT6 : Str := ['T', '6']
def litT7 : Str := ['T', '7']
def litT8 : Str := ['T', '8']
def litT9 : Str := ['T', '9']
def litT10 : Str := ['T', '1', '0']
def litT11 : Str := ['T', '1', '1']

/-- All splits `s = s.take k ++ s.drop k`, gap length `k` ascending.
A lazy regex gap `(.*?)` tries exactly these splits in this order. -/
def splits (s : Str) : List (Str × Str) :=
  (List.range (s.length + 1)).map fun k => (s.take k, s.drop k)

/-- A lazy gap followed by the literal `lit`: try gap lengths in
ascending order; wherever `lit` occurs, run the continuation on the gap
text and on the text after `lit`; if the continuation fails, resume with
a longer gap (Python lazy-quantifier backtracking). -/
def seekLit {α : Type} (lit : Str) (s : Str) (cont : Str → Str → Option α) : Option α :=
  (splits s).findSome? fun p =>
    if lit.isPrefixOf p.2 then cont p.1 (p.2.drop lit.length) else none

/-- The alternation group of the regex: which branch matched, together
with the gap captures inside that branch.  Exactly one branch matches in
any successful match (in the Python regex exactly one of the marker
groups `T4`/`T6`/`T10` — groups 10, 13, 20 of `T_INVARIANT_REGEX` — is
not `None`). -/
inductive BranchMatch : Type where
  | b1 (g7 g9 : Str)        -- `(T2)(.*?)(T3)(.*?)(T4)`, gaps = groups 7, 9
  | b2 (g12 : Str)          -- `(T5)(.*?)(T6)`, gap = group 12
  | b3 (g15 g17 g19 : Str)  -- `(T7)(.*?)(T8)(.*?)(T9)(.*?)(T10)`, gaps = groups 15, 17, 19
deriving DecidableEq, Repr

/-- The literal text matched by the alternation group (group 5). -/
def branchText : BranchMatch → Str
  | .b1 g7 g9 => litT2 ++ g7 ++ litT3 ++ g9 ++ litT4
  | .b2 g12 => litT5 ++ g12 ++ litT6
  | .b3 g15 g17 g19 => litT7 ++ g15 ++ litT8 ++ g17 ++ litT9 ++ g19 ++ litT10

/-- The concatenation of the gap captures inside the alternation group
(the non-`None` members of groups 7, 9, 12, 15, 17, 19, in order). -/
def branchGaps : BranchMatch → Str
  | .b1 g7 g9 => g7 ++ g9
  | .b2 g12 => g12
  | .b3 g15 g17 g19 => g15 ++ g17 ++ g19

/-- `_detect_invariant` of `invariant_checker_core.py`: branch 1 iff the
`T4` marker group matched, branch 2 iff `T6`, branch 3 iff `T10`.  In
the embedding the alternation result is a sum type, so exactly one
marker is present by construction and the Python fallback `return 0`
("should not happen") has no counterpart. -/
def detect_invariant : BranchMatch → Nat
  | .b1 _ _ => 1
  | .b2 _ => 2
  | .b3 _ _ _ => 3

/-- Tail of the pattern after the alternation group: `(.*?)(T11)`. -/
def matchTail (b : BranchMatch) (s : Str) : Option (BranchMatch × Str × Str) :=
  seekLit litT11 s fun gT post => some (b, gT, post)

/-- First alternation branch `(T2)(.*?)(T3)(.*?)(T4)` followed by the
shared tail, anchored at the start of `s`. -/
def matchBr1 (s : Str) : Option (BranchMatch × Str × Str) :=
  if litT2.isPrefixOf s then
    seekLit litT3 (s.drop 2) fun g7 r =>
      seekLit litT4 r fun g9 r2 =>
        matchTail (.b1 g7 g9) r2
  else none

/-- Second alternation branch `(T5)(.*?)(T6)` followed by the shared
tail, anchored at the start of `s`. -/
def matchBr2 (s : Str) : Option (BranchMatch × Str × Str) :=
  if litT5.isPrefixOf s then
    seekLit litT6 (s.drop 2) fun g12 r =>
      matchTail (.b2 g12) r
  else none

/-- Third alternation branch `(T7)(.*?)(T8)(.*?)(T9)(.*?)(T10)` followed
by the shared tail, anchored at the start of `s`. -/
def matchBr3 (s : Str) : Option (BranchMatch × Str × Str) :=
  if litT7.isPrefixOf s then
    seekLit litT8 (s.drop 2) fun g15 r =>
      seekLit litT9 r fun g17 r2 =>
        seekLit litT10 r2 fun g19 r3 =>
          matchTail (.b3 g15 g17 g19) r3
  else none

/-- Ordered alternation: branches are tried left to right (branch 1,
then 2, then 3), each anchored at the start of `s`. -/
def matchBranches (s : Str) : Option (BranchMatch × Str × Str) :=
  match matchBr1 s with
  | some r => some r
  | none =>
    match matchBr2 s with
    | some r => some r
    | none => matchBr3 s

/-- The lazy gap (group 4) before the alternation, then the alternation
and the shared tail.  Returns `(gap4, branch, tailGap, post)`. -/
def matchAlt (s : Str) : Option (Str × BranchMatch × Str × Str) :=
  (splits s).findSome? fun p =>
    (matchBranches p.2).map fun r => (p.1, r.1, r.2.1, r.2.2)

/-- One full match attempt anchored at the start of `s`:
`(T0)(.*?)(T1)` then the rest of the pattern.
Returns `(gap2, gap4, branch, tailGap, post)`. -/
def matchAt (s : Str) : Option (Str × Str × BranchMatch × Str × Str) :=
  if litT0.isPrefixOf s then
    seekLit litT1 (s.drop 2) fun g2 r =>
      (matchAlt r).map fun q => (g2, q.1, q.2.1, q.2.2.1, q.2.2.2)
  else none

/-- A located match: the text before the match (`pre`, i.e.
`s[0 : match.start]`), every gap capture, the alternation branch, and
the text after the match (`post`, i.e. `s[match.end :]`). -/
structure Loc : Type where
  pre : Str
  g2 : Str
  g4 : Str
  br : BranchMatch
  gT : Str
  post : Str
deriving DecidableEq, Repr

/-- `re.search` with `T_INVARIANT_REGEX`: try start offsets left to
right (leftmost match), and at the first offset where the pattern
matches, return the capture structure the backtracking order produces. -/
def search (s : Str) : Option Loc :=
  (splits s).findSome? fun p =>
    (matchAt p.2).map fun q =>
      ⟨p.1, q.1, q.2.1, q.2.2.1, q.2.2.2.1, q.2.2.2.2⟩

/-- The text of the whole stream, reassembled from a located match:
`s = pre ++ T0 ++ g2 ++ T1 ++ g4 ++ branch ++ gT ++ T11 ++ post`. -/
def rebuild (L : Loc) : Str :=
  L.pre ++ litT0 ++ L.g2 ++ litT1 ++ L.g4 ++ branchText L.br ++ L.gT ++ litT11 ++ L.post

/-- `_collect_unmatched_groups` of `invariant_checker_core.py`: join of
the gap groups `_INTER_TOKEN_GROUP_INDICES = (2, 4, 7, 9, 12, 15, 17,
19, 21)` with missing groups as `''`. -/
def collect_unmatched_groups (L : Loc) : Str :=
  L.g2 ++ L.g4 ++ branchGaps L.br ++ L.gT

/-- The stream after one consumption step:
`s[: match.start] + unmatched_groups + s[match.end :]`. -/
def collapse (L : Loc) : Str :=
  L.pre ++ collect_unmatched_groups L ++ L.post

/-- `consume_one_invariant` of `invariant_checker_core.py`:
find and remove a single invariant match, returning
`(remaining_log, matched_invariant, did_consume)`. -/
def consume_one_invariant (s : Str) : Str × Nat × Bool :=
  match search s with
  | none => (s, 0, false)
  | some L => (collapse L, detect_invariant L.br, true)

/-- Python `str.strip()` whitespace (the ASCII whitespace characters
`' '`, `'\t'`, `'\n'`, `'\r'`, `'\x0b'`, `'\x0c'`; the engine's inputs
and the claims involve no exotic Unicode whitespace). -/
def isSpace (c : Char) : Bool :=
  c = ' ' || c = '\t' || c = '\n' || c = '\r' || c = '\x0b' || c = '\x0c'

/-- Python `str.strip()`: drop leading and trailing whitespace. -/
def pyStrip (s : Str) : Str :=
  ((s.dropWhile isSpace).reverse.dropWhile isSpace).reverse

/-- `InvariantCheckResult` of `invariant_checker_core.py`. -/
structure InvariantCheckResult : Type where
  was_fully_consumed : Bool
  leftover_transitions : Str
  invariant_counts : Nat × Nat × Nat
  log_length : Nat
  leftover_length : Nat
deriving DecidableEq, Repr

/-- The `while True` loop of `check_invariants`, with explicit fuel so
that the definition computes by kernel reduction.  Each successful
consumption strictly shortens the stream (`consume_true_length`), so
fuel `s.length + 1` is never exhausted: `reduceFuel_fuel_irrel` and
`reduceFuel_fixpoint` below show the fuelled loop agrees with the
unbounded Python loop. -/
def reduceFuel : Nat → Str → Nat → Nat → Nat → Str × Nat × Nat × Nat
  | 0, s, c1, c2, c3 => (s, c1, c2, c3)
  | fuel + 1, s, c1, c2, c3 =>
    if (consume_one_invariant s).2.2 = false then (s, c1, c2, c3)
    else if (consume_one_invariant s).2.1 = 1 then
      reduceFuel fuel (consume_one_invariant s).1 (c1 + 1) c2 c3
    else if (consume_one_invariant s).2.1 = 2 then
      reduceFuel fuel (consume_one_invariant s).1 c1 (c2 + 1) c3
    else if (consume_one_invariant s).2.1 = 3 then
      reduceFuel fuel (consume_one_invariant s).1 c1 c2 (c3 + 1)
    else reduceFuel fuel (consume_one_invariant s).1 c1 c2 c3

/-- `check_invariants` of `invariant_checker_core.py`: repeatedly remove
invariant matches, count each branch, then strip the final stream. -/
def check_invariants (s : Str) : InvariantCheckResult :=
  let out := reduceFuel (s.length + 1) s 0 0 0
  let leftover := pyStrip out.1
  { was_fully_consumed := leftover.isEmpty
    leftover_transitions := leftover
    invariant_counts := (out.2.1, out.2.2.1, out.2.2.2)
    log_length := s.length
    leftover_length := leftover.length }

/-- Number of successful consumption steps the loop performs. -/
def stepsFuel : Nat → Str → Nat
  | 0, _ => 0
  | fuel + 1, s =>
    if (consume_one_invariant s).2.2 = false then 0
    else stepsFuel fuel (consume_one_invariant s).1 + 1

/-- Number of iterations of the reduction loop of `check_invariants`
that consume a match. -/
def reduceSteps (s : Str) : Nat := stepsFuel (s.length + 1) s

/-! ### The historical variant `scripts/invariant_checker.py` -/

/-- Line-break characters recognised by Python `str.splitlines`. -/
def isLineBreak (c : Char) : Bool :=
  c = '\n' || c = '\r' || c = '\x0b' || c = '\x0c' ||
  c = '\x1c' || c = '\x1d' || c = '\x1e' || c = '\x85' ||
  c = Char.ofNat 0x2028 || c = Char.ofNat 0x2029

/-- Worker for `splitlines`: `acc` is the current line reversed, the
flag records whether the previous character was `'\r'` (so that a
following `'\n'` is part of the same `"\r\n"` boundary). -/
def slGo : Str → Str → Bool → List Str
  | [], acc, _ => if acc.isEmpty then [] else [acc.reverse]
  | c :: rest, acc, lastCR =>
    if lastCR && c = '\n' then slGo rest acc false
    else if c = '\r' then acc.reverse :: slGo rest [] true
    else if isLineBreak c then acc.reverse :: slGo rest [] false
    else slGo rest (c :: acc) false

/-- Python `str.splitlines()`. -/
def splitlines (s : Str) : List Str := slGo s [] false

/-- The normalization of `verify_invariants_text`:
`"".join(part.strip() for part in text.splitlines())`. -/
def flatten (t : Str) : Str := ((splitlines t).map pyStrip).flatten

/-- `_apply_once` of `scripts/invariant_checker.py`.  `_PATTERN` is the
same regex as `T_INVARIANT_REGEX` up to a non-capturing alternation
group, its branch markers are groups 9 (`T4`), 12 (`T6`), 19 (`T10`)
and its kept gap groups are 2, 4, 6, 8, 11, 14, 16, 18, 20 — the same
gaps, so the step is the same transformation; `did_replace` is the
integer 0/1. -/
def apply_once (s : Str) : Str × Nat × Nat :=
  match search s with
  | none => (s, 0, 0)
  | some L => (collapse L, detect_invariant L.br, 1)

/-- The `while True` loop of `verify_invariants_text`, fuelled like
`reduceFuel`. -/
def verifyFuel : Nat → Str → Nat → Nat → Nat → Str × Nat × Nat × Nat
  | 0, s, c1, c2, c3 => (s, c1, c2, c3)
  | fuel + 1, s, c1, c2, c3 =>
    if (apply_once s).2.2 = 0 then (s, c1, c2, c3)
    else if (apply_once s).2.1 = 1 then verifyFuel fuel (apply_once s).1 (c1 + 1) c2 c3
    else if (apply_once s).2.1 = 2 then verifyFuel fuel (apply_once s).1 c1 (c2 + 1) c3
    else if (apply_once s).2.1 = 3 then verifyFuel fuel (apply_once s).1 c1 c2 (c3 + 1)
    else verifyFuel fuel (apply_once s).1 c1 c2 c3

/-- `verify_invariants_text` of `scripts/invariant_checker.py`: flatten
the text (strip each line, join without separators), repeatedly remove
invariant matches, and return `(ok, leftover, counts)`. -/
def verify_invariants_text (t : Str) : Bool × Str × (Nat × Nat × Nat) :=
  let flat := flatten t
  let out := verifyFuel (flat.length + 1) flat 0 0 0
  let leftover := pyStrip out.1
  (leftover.isEmpty, leftover, (out.2.1, out.2.2.1, out.2.2.2))

/-! ### Soundness and completeness of the embedded matcher -/

theorem splits_mem_append {s : Str} {p : Str × Str} (h : p ∈ splits s) :
    p.1 ++ p.2 = s := by
  unfold splits at h
  obtain ⟨k, -, rfl⟩ := List.mem_map.mp h
  exact List.take_append_drop k s

theorem mem_splits_of_eq {s a b : Str} (h : s = a ++ b) : (a, b) ∈ splits s := by
  unfold splits
  refine List.mem_map.mpr ⟨a.length, ?_, ?_⟩
  · subst h
    simp [List.mem_range, Nat.lt_succ_iff]
  · subst h
    rw [List.take_left, List.drop_left]

theorem seekLit_some {α : Type} {lit s : Str} {cont : Str → Str → Option α} {v : α}
    (h : seekLit lit s cont = some v) :
    ∃ g r, s = g ++ lit ++ r ∧ cont g r = some v := by
  unfold seekLit at h
  obtain ⟨p, hp, hfp⟩ := List.exists_of_findSome?_eq_some h
  by_cases hpre : lit.isPrefixOf p.2
  · obtain ⟨t, ht⟩ := List.isPrefixOf_iff_prefix.mp hpre
    refine ⟨p.1, t, ?_, ?_⟩
    · rw [← splits_mem_append hp, ← ht, List.append_assoc]
    · simpa [hpre, ← ht, List.drop_left] using hfp
  · simp [hpre] at hfp

theorem seekLit_none {α : Type} {lit s : Str} {cont : Str → Str → Option α}
    (h : seekLit lit s cont = none) :
    ∀ g r, s = g ++ lit ++ r → cont g r = none := by
  intro g r hs
  unfold seekLit at h
  rw [List.findSome?_eq_none_iff] at h
  have hmem : (g, lit ++ r) ∈ splits s :=
    mem_splits_of_eq (by rw [hs, List.append_assoc])
  have := h (g, lit ++ r) hmem
  simpa [List.isPrefixOf_iff_prefix.mpr (List.prefix_append lit r), List.drop_left] using this

theorem matchTail_some {b b' : BranchMatch} {s gT post : Str}
    (h : matchTail b s = some (b', gT, post)) :
    b' = b ∧ s = gT ++ litT11 ++ post := by
  obtain ⟨g, r, hs, hc⟩ := seekLit_some h
  simp only [Option.some.injEq, Prod.mk.injEq] at hc
  obtain ⟨rfl, rfl, rfl⟩ := hc
  exact ⟨rfl, hs⟩

theorem matchTail_none {b : BranchMatch} {s : Str}
    (h : matchTail b s = none) :
    ∀ gT post, s ≠ gT ++ litT11 ++ post := by
  intro gT post hs
  exact Option.some_ne_none _ (seekLit_none h gT post hs)

theorem matchBr1_some {s : Str} {br : BranchMatch} {gT post : Str}
    (h : matchBr1 s = some (br, gT, post)) :
    ∃ g7 g9, br = .b1 g7 g9 ∧
      s = litT2 ++ g7 ++ litT3 ++ g9 ++ litT4 ++ gT ++ litT11 ++ post := by
  unfold matchBr1 at h
  by_cases hpre : litT2.isPrefixOf s
  · rw [if_pos hpre] at h
    obtain ⟨t, ht⟩ := List.isPrefixOf_iff_prefix.mp hpre
    rw [show s.drop 2 = t from by rw [← ht]; exact List.drop_left' rfl] at h
    obtain ⟨g7, r, hr, h⟩ := seekLit_some h
    obtain ⟨g9, r2, hr2, h⟩ := seekLit_some h
    obtain ⟨heq, hs3⟩ := matchTail_some h
    refine ⟨g7, g9, heq, ?_⟩
    rw [← ht, hr, hr2, hs3]
    simp [List.append_assoc]
  · rw [if_neg hpre] at h
    simp at h

theorem matchBr1_none {s : Str} (h : matchBr1 s = none) :
    ∀ g7 g9 gT post, s ≠ litT2 ++ g7 ++ litT3 ++ g9 ++ litT4 ++ gT ++ litT11 ++ post := by
  intro g7 g9 gT post hs
  unfold matchBr1 at h
  have hpre : litT2.isPrefixOf s :=
    List.isPrefixOf_iff_prefix.mpr ⟨g7 ++ litT3 ++ g9 ++ litT4 ++ gT ++ litT11 ++ post,
      by rw [hs]; simp [List.append_assoc]⟩
  rw [if_pos hpre] at h
  have hdrop : s.drop 2 = g7 ++ litT3 ++ (g9 ++ litT4 ++ (gT ++ litT11 ++ post)) := by
    rw [hs, show litT2 ++ g7 ++ litT3 ++ g9 ++ litT4 ++ gT ++ litT11 ++ post
        = litT2 ++ (g7 ++ litT3 ++ (g9 ++ litT4 ++ (gT ++ litT11 ++ post)))
      from by simp [List.append_assoc]]
    exact List.drop_left' rfl
  have h2 := seekLit_none h g7 (g9 ++ litT4 ++ (gT ++ litT11 ++ post)) hdrop
  have h3 := seekLit_none h2 g9 (gT ++ litT11 ++ post) rfl
  exact matchTail_none h3 gT post rfl

theorem matchBr2_some {s : Str} {br : BranchMatch} {gT post : Str}
    (h : matchBr2 s = some (br, gT, post)) :
    ∃ g12, br = .b2 g12 ∧ s = litT5 ++ g12 ++ litT6 ++ gT ++ litT11 ++ post := by
  unfold matchBr2 at h
  by_cases hpre : litT5.isPrefixOf s
  · rw [if_pos hpre] at h
    obtain ⟨t, ht⟩ := List.isPrefixOf_iff_prefix.mp hpre
    rw [show s.drop 2 = t from by rw [← ht]; exact List.drop_left' rfl] at h
    obtain ⟨g12, r, hr, h⟩ := seekLit_some h
    obtain ⟨heq, hs3⟩ := matchTail_some h
    refine ⟨g12, heq, ?_⟩
    rw [← ht, hr, hs3]
    simp [List.append_assoc]
  · rw [if_neg hpre] at h
    simp at h

theorem matchBr2_none {s : Str} (h : matchBr2 s = none) :
    ∀ g12 gT post, s ≠ litT5 ++ g12 ++ litT6 ++ gT ++ litT11 ++ post := by
  intro g12 gT post hs
  unfold matchBr2 at h
  have hpre : litT5.isPrefixOf s :=
    List.isPrefixOf_iff_prefix.mpr ⟨g12 ++ litT6 ++ gT ++ litT11 ++ post,
      by rw [hs]; simp [List.append_assoc]⟩
  rw [if_pos hpre] at h
  have hdrop : s.drop 2 = g12 ++ litT6 ++ (gT ++ litT11 ++ post) := by
    rw [hs, show litT5 ++ g12 ++ litT6 ++ gT ++ litT11 ++ post
        = litT5 ++ (g12 ++ litT6 ++ (gT ++ litT11 ++ post))
      from by simp [List.append_assoc]]
    exact List.drop_left' rfl
  have h2 := seekLit_none h g12 (gT ++ litT11 ++ post) hdrop
  exact matchTail_none h2 gT post rfl

theorem matchBr3_some {s : Str} {br : BranchMatch} {gT post : Str}
    (h : matchBr3 s = some (br, gT, post)) :
    ∃ g15 g17 g19, br = .b3 g15 g17 g19 ∧
      s = litT7 ++ g15 ++ litT8 ++ g17 ++ litT9 ++ g19 ++ litT10 ++ gT ++ litT11 ++ post := by
  unfold matchBr3 at h
  by_cases hpre : litT7.isPrefixOf s
  · rw [if_pos hpre] at h
    obtain ⟨t, ht⟩ := List.isPrefixOf_iff_prefix.mp hpre
    rw [show s.drop 2 = t from by rw [← ht]; exact List.drop_left' rfl] at h
    obtain ⟨g15, r, hr, h⟩ := seekLit_some h
    obtain ⟨g17, r2, hr2, h⟩ := seekLit_some h
    obtain ⟨g19, r3, hr3, h⟩ := seekLit_some h
    obtain ⟨heq, hs3⟩ := matchTail_some h
    refine ⟨g15, g17, g19, heq, ?_⟩
    rw [← ht, hr, hr2, hr3, hs3]
    simp [List.append_assoc]
  · rw [if_neg hpre] at h
    simp at h

theorem matchBr3_none {s : Str} (h : matchBr3 s = none) :
    ∀ g15 g17 g19 gT post,
      s ≠ litT7 ++ g15 ++ litT8 ++ g17 ++ litT9 ++ g19 ++ litT10 ++ gT ++ litT11 ++ post := by
  intro g15 g17 g19 gT post hs
  unfold matchBr3 at h
  have hpre : litT7.isPrefixOf s :=
    List.isPrefixOf_iff_prefix.mpr
      ⟨g15 ++ litT8 ++ g17 ++ litT9 ++ g19 ++ litT10 ++ gT ++ litT11 ++ post,
        by rw [hs]; simp [List.append_assoc]⟩
  rw [if_pos hpre] at h
  have hdrop : s.drop 2
      = g15 ++ litT8 ++ (g17 ++ litT9 ++ (g19 ++ litT10 ++ (gT ++ litT11 ++ post))) := by
    rw [hs, show litT7 ++ g15 ++ litT8 ++ g17 ++ litT9 ++ g19 ++ litT10 ++ gT ++ litT11 ++ post
        = litT7 ++ (g15 ++ litT8 ++ (g17 ++ litT9 ++ (g19 ++ litT10 ++ (gT ++ litT11 ++ post))))
      from by simp [List.append_assoc]]
    exact List.drop_left' rfl
  have h2 := seekLit_none h g15 (g17 ++ litT9 ++ (g19 ++ litT10 ++ (gT ++ litT11 ++ post))) hdrop
  have h3 := seekLit_none h2 g17 (g19 ++ litT10 ++ (gT ++ litT11 ++ post)) rfl
  have h4 := seekLit_none h3 g19 (gT ++ litT11 ++ post) rfl
  exact matchTail_none h4 gT post rfl

theorem matchBranches_some {s : Str} {br : BranchMatch} {gT post : Str}
    (h : matchBranches s = some (br, gT, post)) :
    s = branchText br ++ gT ++ litT11 ++ post := by
  unfold matchBranches at h
  cases h1 : matchBr1 s with
  | some r =>
    rw [h1] at h
    obtain ⟨g7, g9, rfl, hs⟩ := matchBr1_some (h1.trans h)
    rw [hs]; simp [branchText, List.append_assoc]
  | none =>
    rw [h1] at h
    cases h2 : matchBr2 s with
    | some r =>
      rw [h2] at h
      obtain ⟨g12, rfl, hs⟩ := matchBr2_some (h2.trans h)
      rw [hs]; simp [branchText, List.append_assoc]
    | none =>
      rw [h2] at h
      obtain ⟨g15, g17, g19, rfl, hs⟩ := matchBr3_some h
      rw [hs]; simp [branchText, List.append_assoc]

theorem matchBranches_none {s : Str} (h : matchBranches s = none) :
    ∀ (br : BranchMatch) (gT post : Str), s ≠ branchText br ++ gT ++ litT11 ++ post := by
  intro br gT post hs
  unfold matchBranches at h
  cases h1 : matchBr1 s with
  | some r => rw [h1] at h; simp at h
  | none =>
    rw [h1] at h
    cases h2 : matchBr2 s with
    | some r => rw [h2] at h; simp at h
    | none =>
      rw [h2] at h
      cases br with
      | b1 g7 g9 =>
        exact matchBr1_none h1 g7 g9 gT post (by rw [hs]; simp [branchText, List.append_assoc])
      | b2 g12 =>
        exact matchBr2_none h2 g12 gT post (by rw [hs]; simp [branchText, List.append_assoc])
      | b3 g15 g17 g19 =>
        exact matchBr3_none h g15 g17 g19 gT post
          (by rw [hs]; simp [branchText, List.append_assoc])

theorem matchAlt_some {s g4 : Str} {br : BranchMatch} {gT post : Str}
    (h : matchAlt s = some (g4, br, gT, post)) :
    s = g4 ++ branchText br ++ gT ++ litT11 ++ post := by
  unfold matchAlt at h
  obtain ⟨p, hp, hfp⟩ := List.exists_of_findSome?_eq_some h
  cases hmb : matchBranches p.2 with
  | none => rw [hmb] at hfp; simp at hfp
  | some r =>
    rw [hmb] at hfp
    simp only [Option.map_some', Option.some.injEq, Prod.mk.injEq] at hfp
    obtain ⟨rfl, h1, h2, h3⟩ := hfp
    have hmb2 : matchBranches p.2 = some (br, gT, post) := by
      rw [hmb, ← h1, ← h2, ← h3]
    have := matchBranches_some hmb2
    rw [← splits_mem_append hp, this]
    simp [List.append_assoc]

theorem matchAlt_none {s : Str} (h : matchAlt s = none) :
    ∀ (g4 : Str) (br : BranchMatch) (gT post : Str),
      s ≠ g4 ++ branchText br ++ gT ++ litT11 ++ post := by
  intro g4 br gT post hs
  unfold matchAlt at h
  rw [List.findSome?_eq_none_iff] at h
  have hmem : (g4, branchText br ++ gT ++ litT11 ++ post) ∈ splits s :=
    mem_splits_of_eq (by rw [hs]; simp [List.append_assoc])
  have := h _ hmem
  simp only [Option.map_eq_none'] at this
  exact matchBranches_none this br gT post rfl

theorem matchAt_some {s g2 g4 : Str} {br : BranchMatch} {gT post : Str}
    (h : matchAt s = some (g2, g4, br, gT, post)) :
    s = litT0 ++ g2 ++ litT1 ++ g4 ++ branchText br ++ gT ++ litT11 ++ post := by
  unfold matchAt at h
  by_cases hpre : litT0.isPrefixOf s
  · rw [if_pos hpre] at h
    obtain ⟨t, ht⟩ := List.isPrefixOf_iff_prefix.mp hpre
    rw [show s.drop 2 = t from by rw [← ht]; exact List.drop_left' rfl] at h
    obtain ⟨g2', r, hr, h⟩ := seekLit_some h
    cases hma : matchAlt r with
    | none => rw [hma] at h; simp at h
    | some q =>
      rw [hma] at h
      simp only [Option.map_some', Option.some.injEq, Prod.mk.injEq] at h
      obtain ⟨rfl, h1, h2, h3, h4⟩ := h
      have hma2 : matchAlt r = some (g4, br, gT, post) := by
        rw [hma, ← h1, ← h2, ← h3, ← h4]
      have := matchAlt_some hma2
      rw [← ht, hr, this]
      simp [List.append_assoc]
  · rw [if_neg hpre] at h
    simp at h

theorem matchAt_none {s : Str} (h : matchAt s = none) :
    ∀ (g2 g4 : Str) (br : BranchMatch) (gT post : Str),
      s ≠ litT0 ++ g2 ++ litT1 ++ g4 ++ branchText br ++ gT ++ litT11 ++ post := by
  intro g2 g4 br gT post hs
  unfold matchAt at h
  have hpre : litT0.isPrefixOf s :=
    List.isPrefixOf_iff_prefix.mpr ⟨g2 ++ litT1 ++ g4 ++ branchText br ++ gT ++ litT11 ++ post,
      by rw [hs]; simp [List.append_assoc]⟩
  rw [if_pos hpre] at h
  have hdrop : s.drop 2 = g2 ++ litT1 ++ (g4 ++ branchText br ++ gT ++ litT11 ++ post) := by
    rw [hs, show litT0 ++ g2 ++ litT1 ++ g4 ++ branchText br ++ gT ++ litT11 ++ post
        = litT0 ++ (g2 ++ litT1 ++ (g4 ++ branchText br ++ gT ++ litT11 ++ post))
      from by simp [List.append_assoc]]
    exact List.drop_left' rfl
  have h2 := seekLit_none h g2 (g4 ++ branchText br ++ gT ++ litT11 ++ post) hdrop
  simp only [Option.map_eq_none'] at h2
  exact matchAlt_none h2 g4 br gT post rfl

theorem search_some {s : Str} {L : Loc} (h : search s = some L) : s = rebuild L := by
  unfold search at h
  obtain ⟨p, hp, hfp⟩ := List.exists_of_findSome?_eq_some h
  cases hma : matchAt p.2 with
  | none => rw [hma] at hfp; simp at hfp
  | some q =>
    rw [hma] at hfp
    simp only [Option.map_some', Option.some.injEq] at hfp
    have hqs : matchAt p.2 = some (L.g2, L.g4, L.br, L.gT, L.post) := by
      rw [hma, ← hfp]
    have := matchAt_some hqs
    rw [← splits_mem_append hp, this, rebuild, ← hfp]
    simp [List.append_assoc]

theorem search_none {s : Str} (h : search s = none) : ∀ L : Loc, s ≠ rebuild L := by
  intro L hs
  unfold search at h
  rw [List.findSome?_eq_none_iff] at h
  have hmem : (L.pre, litT0 ++ L.g2 ++ litT1 ++ L.g4 ++ branchText L.br ++ L.gT
      ++ litT11 ++ L.post) ∈ splits s :=
    mem_splits_of_eq (by rw [hs]; simp [rebuild, List.append_assoc])
  have := h _ hmem
  simp only [Option.map_eq_none'] at this
  exact matchAt_none this L.g2 L.g4 L.br L.gT L.post rfl

/-! ### The consumption step and the reduction loop -/

theorem consume_true {s r : Str} {m : Nat}
    (h : consume_one_invariant s = (r, m, true)) :
    ∃ L, search s = some L ∧ r = collapse L ∧ m = detect_invariant L.br := by
  unfold consume_one_invariant at h
  cases hs : search s with
  | none => rw [hs] at h; simp at h
  | some L =>
    rw [hs] at h
    simp only [Prod.mk.injEq] at h
    exact ⟨L, rfl, h.1.symm, h.2.1.symm⟩

theorem consume_of_search_none {s : Str} (h : search s = none) :
    consume_one_invariant s = (s, 0, false) := by
  simp [consume_one_invariant, h]

theorem consume_did_false {s r : Str} {m : Nat}
    (h : consume_one_invariant s = (r, m, false)) : search s = none ∧ r = s := by
  unfold consume_one_invariant at h
  cases hs : search s with
  | none => rw [hs] at h; simp only [Prod.mk.injEq] at h; exact ⟨rfl, h.1.symm⟩
  | some L => rw [hs] at h; simp at h

theorem collapse_length {L : Loc} : (collapse L).length + 11 ≤ (rebuild L).length := by
  obtain ⟨pre, g2, g4, br, gT, post⟩ := L
  cases br <;>
    simp [collapse, rebuild, collect_unmatched_groups, branchText, branchGaps,
      litT0, litT1, litT2, litT3, litT4, litT5, litT6, litT7, litT8, litT9, litT10, litT11,
      List.length_append] <;>
    omega

theorem consume_true_length {s r : Str} {m : Nat}
    (h : consume_one_invariant s = (r, m, true)) : r.length + 11 ≤ s.length := by
  obtain ⟨L, hL, rfl, -⟩ := consume_true h
  rw [search_some hL]
  exact collapse_length

theorem detect_invariant_mem (b : BranchMatch) :
    detect_invariant b = 1 ∨ detect_invariant b = 2 ∨ detect_invariant b = 3 := by
  cases b <;> simp [detect_invariant]

theorem reduceFuel_succ (fuel : Nat) (s : Str) (c1 c2 c3 : Nat) :
    reduceFuel (fuel + 1) s c1 c2 c3
      = if (consume_one_invariant s).2.2 = false then (s, c1, c2, c3)
        else if (consume_one_invariant s).2.1 = 1 then
          reduceFuel fuel (consume_one_invariant s).1 (c1 + 1) c2 c3
        else if (consume_one_invariant s).2.1 = 2 then
          reduceFuel fuel (consume_one_invariant s).1 c1 (c2 + 1) c3
        else if (consume_one_invariant s).2.1 = 3 then
          reduceFuel fuel (consume_one_invariant s).1 c1 c2 (c3 + 1)
        else reduceFuel fuel (consume_one_invariant s).1 c1 c2 c3 := rfl

theorem stepsFuel_succ (fuel : Nat) (s : Str) :
    stepsFuel (fuel + 1) s
      = if (consume_one_invariant s).2.2 = false then 0
        else stepsFuel fuel (consume_one_invariant s).1 + 1 := rfl

theorem reduceFuel_length_le :
    ∀ (fuel : Nat) (s : Str) (c1 c2 c3 : Nat),
      ((reduceFuel fuel s c1 c2 c3).1).length ≤ s.length := by
  intro fuel
  induction fuel with
  | zero => intro s c1 c2 c3; exact Nat.le_refl _
  | succ fuel ih =>
    intro s c1 c2 c3
    rcases hc : consume_one_invariant s with ⟨r, m, d⟩
    rw [reduceFuel_succ, hc]
    dsimp only
    cases d with
    | false => rw [if_pos rfl]
    | true =>
      have hlen := consume_true_length hc
      rw [if_neg (by simp)]
      by_cases h1 : m = 1
      · rw [if_pos h1]; exact Nat.le_trans (ih r (c1 + 1) c2 c3) (by omega)
      · rw [if_neg h1]
        by_cases h2 : m = 2
        · rw [if_pos h2]; exact Nat.le_trans (ih r c1 (c2 + 1) c3) (by omega)
        · rw [if_neg h2]
          by_cases h3 : m = 3
          · rw [if_pos h3]; exact Nat.le_trans (ih r c1 c2 (c3 + 1)) (by omega)
          · rw [if_neg h3]; exact Nat.le_trans (ih r c1 c2 c3) (by omega)

theorem reduceFuel_fixpoint :
    ∀ (fuel : Nat) (s : Str) (c1 c2 c3 : Nat), s.length < fuel →
      search ((reduceFuel fuel s c1 c2 c3).1) = none := by
  intro fuel
  induction fuel with
  | zero => intro s c1 c2 c3 h; omega
  | succ fuel ih =>
    intro s c1 c2 c3 hlt
    rcases hc : consume_one_invariant s with ⟨r, m, d⟩
    rw [reduceFuel_succ, hc]
    dsimp only
    cases d with
    | false => rw [if_pos rfl]; exact (consume_did_false hc).1
    | true =>
      have hlen := consume_true_length hc
      rw [if_neg (by simp)]
      by_cases h1 : m = 1
      · rw [if_pos h1]; exact ih r (c1 + 1) c2 c3 (by omega)
      · rw [if_neg h1]
        by_cases h2 : m = 2
        · rw [if_pos h2]; exact ih r c1 (c2 + 1) c3 (by omega)
        · rw [if_neg h2]
          by_cases h3 : m = 3
          · rw [if_pos h3]; exact ih r c1 c2 (c3 + 1) (by omega)
          · rw [if_neg h3]; exact ih r c1 c2 c3 (by omega)

theorem reduceFuel_counts_sum :
    ∀ (fuel : Nat) (s : Str) (c1 c2 c3 : Nat),
      (reduceFuel fuel s c1 c2 c3).2.1 + (reduceFuel fuel s c1 c2 c3).2.2.1
          + (reduceFuel fuel s c1 c2 c3).2.2.2
        = c1 + c2 + c3 + stepsFuel fuel s := by
  intro fuel
  induction fuel with
  | zero => intro s c1 c2 c3; simp [reduceFuel, stepsFuel]
  | succ fuel ih =>
    intro s c1 c2 c3
    rcases hc : consume_one_invariant s with ⟨r, m, d⟩
    rw [reduceFuel_succ, stepsFuel_succ, hc]
    dsimp only
    cases d with
    | false => rw [if_pos rfl, if_pos rfl]; simp
    | true =>
      obtain ⟨L, -, -, hm⟩ := consume_true hc
      have htf : ((true : Bool) = false) = False := by simp
      rcases detect_invariant_mem L.br with h1 | h2 | h3
      · rw [hm, h1]
        simp only [htf, show ((1 : Nat) = 1) = True from by simp, if_true, if_false]
        rw [ih r (c1 + 1) c2 c3]; omega
      · rw [hm, h2]
        simp only [htf, show ((2 : Nat) = 1) = False from by simp,
          show ((2 : Nat) = 2) = True from by simp, if_true, if_false]
        rw [ih r c1 (c2 + 1) c3]; omega
      · rw [hm, h3]
        simp only [htf, show ((3 : Nat) = 1) = False from by simp,
          show ((3 : Nat) = 2) = False from by simp,
          show ((3 : Nat) = 3) = True from by simp, if_true, if_false]
        rw [ih r c1 c2 (c3 + 1)]; omega

theorem stepsFuel_le_length : ∀ (fuel : Nat) (s : Str), stepsFuel fuel s ≤ s.length := by
  intro fuel
  induction fuel with
  | zero => intro s; simp [stepsFuel]
  | succ fuel ih =>
    intro s
    rcases hc : consume_one_invariant s with ⟨r, m, d⟩
    rw [stepsFuel_succ, hc]
    dsimp only
    cases d with
    | false => rw [if_pos rfl]; omega
    | true =>
      rw [if_neg (by simp)]
      have hlen := consume_true_length hc
      have := ih r
      omega

theorem reduceFuel_of_search_none {fuel : Nat} {s : Str} {c1 c2 c3 : Nat}
    (h : search s = none) : reduceFuel (fuel + 1) s c1 c2 c3 = (s, c1, c2, c3) := by
  rw [reduceFuel_succ, consume_of_search_none h, if_pos rfl]

theorem check_invariants_of_search_none {s : Str} (h : search s = none) :
    check_invariants s
      = ⟨(pyStrip s).isEmpty, pyStrip s, (0, 0, 0), s.length, (pyStrip s).length⟩ := by
  unfold check_invariants
  rw [reduceFuel_of_search_none h]

/-! ### Properties of `pyStrip` -/

theorem dropWhile_head_false {p : Char → Bool} :
    ∀ (l : Str) (c : Char), (l.dropWhile p).head? = some c → p c = false := by
  intro l
  induction l with
  | nil => intro c hc; simp at hc
  | cons a t ih =>
    intro c hc
    by_cases hp : p a
    · rw [List.dropWhile_cons_of_pos hp] at hc
      exact ih c hc
    · rw [List.dropWhile_cons_of_neg hp] at hc
      simp only [List.head?_cons, Option.some.injEq] at hc
      rw [← hc]
      exact Bool.of_not_eq_true hp

theorem pyStrip_decomp (s : Str) : ∃ a b, s = a ++ pyStrip s ++ b := by
  refine ⟨s.takeWhile isSpace, ((s.dropWhile isSpace).reverse.takeWhile isSpace).reverse, ?_⟩
  rw [List.append_assoc]
  conv_lhs => rw [← List.takeWhile_append_dropWhile (p := isSpace) (l := s)]
  congr 1
  conv_lhs => rw [← List.reverse_reverse (s.dropWhile isSpace),
    ← List.takeWhile_append_dropWhile (p := isSpace) (l := (s.dropWhile isSpace).reverse)]
  rw [List.reverse_append]
  rfl

theorem pyStrip_length_le (s : Str) : (pyStrip s).length ≤ s.length := by
  obtain ⟨a, b, h⟩ := pyStrip_decomp s
  conv_rhs => rw [h]
  simp only [List.length_append]
  omega

theorem pyStrip_head {s : Str} {c : Char}
    (hc : (pyStrip s).head? = some c) : isSpace c = false := by
  unfold pyStrip at hc
  rw [List.head?_reverse] at hc
  set t := s.dropWhile isSpace with ht
  set u := t.reverse.dropWhile isSpace with hu
  obtain ⟨w, hw⟩ := List.dropWhile_suffix (l := t.reverse) isSpace
  have hlast : t.reverse.getLast? = some c := by
    rw [← hw, List.getLast?_append, hc]
    rfl
  rw [List.getLast?_eq_head?_reverse, List.reverse_reverse] at hlast
  exact dropWhile_head_false s c hlast

theorem pyStrip_last {s : Str} {c : Char}
    (hc : (pyStrip s).getLast? = some c) : isSpace c = false := by
  unfold pyStrip at hc
  rw [List.getLast?_eq_head?_reverse, List.reverse_reverse] at hc
  exact dropWhile_head_false _ c hc

theorem dropWhile_eq_self_of_head {p : Char → Bool} {l : Str}
    (h : ∀ c, l.head? = some c → p c = false) : l.dropWhile p = l := by
  cases l with
  | nil => rfl
  | cons a t =>
    have := h a rfl
    rw [List.dropWhile_cons_of_neg (by simp [this])]

theorem pyStrip_eq_self {s : Str}
    (h1 : ∀ c, s.head? = some c → isSpace c = false)
    (h2 : ∀ c, s.getLast? = some c → isSpace c = false) : pyStrip s = s := by
  unfold pyStrip
  rw [dropWhile_eq_self_of_head h1]
  rw [dropWhile_eq_self_of_head (by intro c hc; rw [List.head?_reverse] at hc; exact h2 c hc)]
  exact List.reverse_reverse s

theorem pyStrip_idem (s : Str) : pyStrip (pyStrip s) = pyStrip s :=
  pyStrip_eq_self (fun _ hc => pyStrip_head hc) (fun _ hc => pyStrip_last hc)

/-! ### The historical variant agrees with the canonical engine -/

theorem apply_once_eq (s : Str) :
    apply_once s = ((consume_one_invariant s).1, (consume_one_invariant s).2.1,
      if (consume_one_invariant s).2.2 then 1 else 0) := by
  unfold apply_once consume_one_invariant
  cases search s <;> simp

theorem verifyFuel_succ (fuel : Nat) (s : Str) (c1 c2 c3 : Nat) :
    verifyFuel (fuel + 1) s c1 c2 c3
      = if (apply_once s).2.2 = 0 then (s, c1, c2, c3)
        else if (apply_once s).2.1 = 1 then verifyFuel fuel (apply_once s).1 (c1 + 1) c2 c3
        else if (apply_once s).2.1 = 2 then verifyFuel fuel (apply_once s).1 c1 (c2 + 1) c3
        else if (apply_once s).2.1 = 3 then verifyFuel fuel (apply_once s).1 c1 c2 (c3 + 1)
        else verifyFuel fuel (apply_once s).1 c1 c2 c3 := rfl

theorem verifyFuel_eq_reduceFuel :
    ∀ (fuel : Nat) (s : Str) (c1 c2 c3 : Nat),
      verifyFuel fuel s c1 c2 c3 = reduceFuel fuel s c1 c2 c3 := by
  intro fuel
  induction fuel with
  | zero => intro s c1 c2 c3; rfl
  | succ fuel ih =>
    intro s c1 c2 c3
    rcases hc : consume_one_invariant s with ⟨r, m, d⟩
    cases d with
    | false =>
      have ha : apply_once s = (r, m, 0) := by rw [apply_once_eq, hc]; rfl
      rw [verifyFuel_succ, reduceFuel_succ, ha, hc]
      dsimp only
      rw [if_pos rfl, if_pos rfl]
    | true =>
      have ha : apply_once s = (r, m, 1) := by rw [apply_once_eq, hc]; rfl
      rw [verifyFuel_succ, reduceFuel_succ, ha, hc]
      dsimp only
      rw [if_neg (show ¬((1 : Nat) = 0) from by omega),
        if_neg (show ¬((true : Bool) = false) from by simp)]
      by_cases h1 : m = 1
      · rw [if_pos h1, if_pos h1, ih]
      · rw [if_neg h1, if_neg h1]
        by_cases h2 : m = 2
        · rw [if_pos h2, if_pos h2, ih]
        · rw [if_neg h2, if_neg h2]
          by_cases h3 : m = 3
          · rw [if_pos h3, if_pos h3, ih]
          · rw [if_neg h3, if_neg h3, ih]

theorem slGo_no_break :
    ∀ t : Str, (∀ c ∈ t, isLineBreak c = false) →
      ∀ acc : Str, slGo t acc false
        = if (acc.reverse ++ t).isEmpty then [] else [acc.reverse ++ t] := by
  intro t
  induction t with
  | nil =>
    intro _ acc
    cases acc <;> simp [slGo, List.isEmpty_iff]
  | cons c rest ih =>
    intro h acc
    have hc : isLineBreak c = false := h c (by simp)
    have hcr : ¬(c = '\r') := by
      intro e; rw [e] at hc; simp [isLineBreak] at hc
    unfold slGo
    rw [if_neg (by simp), if_neg hcr, if_neg (by simp [hc])]
    rw [ih (fun x hx => h x (by simp [hx])) (c :: acc)]
    have h1 : ¬(((c :: acc).reverse ++ rest).isEmpty = true) := by
      simp [List.isEmpty_iff]
    have h2 : ¬((acc.reverse ++ c :: rest).isEmpty = true) := by
      simp [List.isEmpty_iff]
    rw [if_neg h1, if_neg h2]
    simp [List.append_assoc]

theorem splitlines_no_break {t : Str} (h : ∀ c ∈ t, isLineBreak c = false) :
    splitlines t = if t.isEmpty then [] else [t] := by
  have := slGo_no_break t h []
  simpa [splitlines] using this

theorem flatten_eq_self {t : Str} (hb : ∀ c ∈ t, isLineBreak c = false)
    (hs : pyStrip t = t) : flatten t = t := by
  unfold flatten
  rw [splitlines_no_break hb]
  cases t with
  | nil => rfl
  | cons c r => simp [hs]

/-! ### Further consequences of soundness and completeness -/

theorem search_none_of_no_T0 {s : Str} (h : ¬ litT0 <:+: s) : search s = none := by
  cases hs : search s with
  | none => rfl
  | some L =>
    exfalso
    apply h
    refine ⟨L.pre, L.g2 ++ litT1 ++ L.g4 ++ branchText L.br ++ L.gT ++ litT11 ++ L.post, ?_⟩
    rw [search_some hs, rebuild]
    simp [List.append_assoc]

theorem search_pyStrip_none {s : Str} (h : search s = none) :
    search (pyStrip s) = none := by
  cases hs : search (pyStrip s) with
  | none => rfl
  | some L =>
    exfalso
    obtain ⟨a, b, hab⟩ := pyStrip_decomp s
    have hsrebuild : s = rebuild ⟨a ++ L.pre, L.g2, L.g4, L.br, L.gT, L.post ++ b⟩ := by
      rw [hab, search_some hs]
      simp [rebuild, List.append_assoc]
    exact search_none h _ hsrebuild

theorem branchText_append_inj {b b' : BranchMatch} {x y : Str}
    (h : branchText b ++ x = branchText b' ++ y) :
    detect_invariant b = detect_invariant b' := by
  cases b <;> cases b' <;>
    simp_all [branchText, detect_invariant, litT2, litT5, litT7,
      litT3, litT4, litT6, litT8, litT9, litT10, List.cons_append, List.append_assoc]

/-! ### Sanity checks: the testable properties listed in the spec -/

example : check_invariants ("T0T1T2T3T4T11").data = ⟨true, [], (1, 0, 0), 13, 0⟩ := rfl

example : check_invariants ("T0T1T5T6T11").data = ⟨true, [], (0, 1, 0), 11, 0⟩ := rfl

example : check_invariants ("T0T1T7T8T9T10T11").data = ⟨true, [], (0, 0, 1), 16, 0⟩ := rfl

example : check_invariants ("T0xT1yT2zT3wT4vT11").data
    = ⟨false, ('x' :: 'y' :: 'z' :: 'w' :: 'v' :: []), (1, 0, 0), 18, 5⟩ := rfl

/-! ### The claims -/

/-- C1, counterexample.  On the stream `T0T1T5T6T2T3T4T11` the prefix
occurrence `T0` at offset 0, `T1` at offset 2 (`pre = ""`, `g2 = ""`)
admits a completing Template-1 continuation (witnessed by the exhibited
`rebuild` decomposition with `g4 = "T5T6"`), yet `consume_one_invariant`
attributes the located match to template 2 — the lazy gap reaches `T5`
before `T2`, so the lowest-numbered template does not win. -/
theorem claim1_counterexample :
    (consume_one_invariant ("T0T1T5T6T2T3T4T11").data).2.1 = 2
      ∧ ("T0T1T5T6T2T3T4T11").data
          = rebuild ⟨[], [], ("T5T6").data, .b1 [] [], [], []⟩ :=
  ⟨rfl, rfl⟩

/-- C1, amended.  Each individual located match is attributed exactly
one template id in `{1, 2, 3}`; template priority order (1 before 2
before 3) decides only between continuations that would start at the
same offset after the prefix — and at any single offset at most one
template's opening anchor can match, so two completing continuations
from the same prefix occurrence and the same filler gap always carry
the same template id.  Across different filler lengths the backtracking
order (shortest `g4` first) decides, not the template number. -/
theorem claim1_thm (s r : Str) (m : Nat)
    (pre g2 g4 gT post gT' post' : Str) (b b' : BranchMatch) :
    (consume_one_invariant s = (r, m, true) → m = 1 ∨ m = 2 ∨ m = 3)
      ∧ (pre ++ litT0 ++ g2 ++ litT1 ++ g4 ++ branchText b ++ gT ++ litT11 ++ post
            = pre ++ litT0 ++ g2 ++ litT1 ++ g4 ++ branchText b' ++ gT' ++ litT11 ++ post'
          → detect_invariant b = detect_invariant b') := by
  constructor
  · intro h
    obtain ⟨L, -, -, hm⟩ := consume_true h
    rw [hm]
    exact detect_invariant_mem L.br
  · intro h
    simp only [List.append_assoc, List.append_cancel_left_eq] at h
    exact branchText_append_inj (by simpa [List.append_assoc] using h)

/-- C1 witness: a concrete located match with its template id in
`{1, 2, 3}`. -/
theorem claim1_witness :
    consume_one_invariant ("T0T1T5T6T11").data = ([], 2, true)
      ∧ ((2 : Nat) = 1 ∨ (2 : Nat) = 2 ∨ (2 : Nat) = 3) :=
  ⟨rfl, (claim1_thm ("T0T1T5T6T11").data [] 2 [] [] [] [] [] [] []
    (.b2 []) (.b2 [])).1 rfl⟩

/-- C2, counterexample.  On the input `" x"` (leading space), the
normalized stream (each line stripped, lines concatenated) is `"x"` of
length 1, but `check_invariants` reports `log_length = 2`: the canonical
engine processes the raw input, not the normalization. -/
theorem claim2_counterexample :
    (check_invariants (" x").data).log_length = 2
      ∧ (flatten (" x").data).length = 1 :=
  ⟨rfl, rfl⟩

/-- C2, amended.  `check_invariants` performs no normalization: its
reduction loop starts from the raw input and the returned `log_length`
equals the raw input's length.  The per-line strip-and-concatenate
normalization (`flatten`) is performed only by the historical
`verify_invariants_text`, which returns no `log_length` field. -/
theorem claim2_thm (s : Str) : (check_invariants s).log_length = s.length := rfl

/-- C3, counterexample.  The empty stream contains no `T0` token, yet
`check_invariants` returns `was_fully_consumed = true` (the trimmed
residue is empty), not `false` as the claim demands. -/
theorem claim3_counterexample :
    ¬ (litT0 <:+: ([] : Str))
      ∧ (check_invariants []).was_fully_consumed = true :=
  ⟨by simp [litT0], rfl⟩

/-- C3, amended.  For every stream with no occurrence of `T0`,
`check_invariants` returns `counts = (0, 0, 0)` and residue equal to the
whitespace-trimmed input, and `fully_consumed` is true exactly when that
trimmed input is empty (so it is `false` for every such stream whose
trimmed content is non-empty, but `true` for empty or all-whitespace
streams). -/
theorem claim3_thm (s : Str) (h : ¬ litT0 <:+: s) :
    (check_invariants s).invariant_counts = (0, 0, 0)
      ∧ (check_invariants s).leftover_transitions = pyStrip s
      ∧ (check_invariants s).was_fully_consumed = (pyStrip s).isEmpty := by
  rw [check_invariants_of_search_none (search_none_of_no_T0 h)]
  exact ⟨rfl, rfl, rfl⟩

/-- C3 witness: the stream `"xyz"` has no `T0`; counts are zero and the
residue is the trimmed input. -/
theorem claim3_witness :
    ¬ (litT0 <:+: ("xyz").data)
      ∧ (check_invariants ("xyz").data).invariant_counts = (0, 0, 0)
      ∧ (check_invariants ("xyz").data).leftover_transitions = pyStrip ("xyz").data
      ∧ (check_invariants ("xyz").data).was_fully_consumed
          = (pyStrip ("xyz").data).isEmpty := by
  have h : ¬ (litT0 <:+: ("xyz").data) := by decide
  exact ⟨h, claim3_thm _ h⟩

/-- C4.  For every located match `L`, the stream decomposes as
`pre ++ T0 ++ g2 ++ T1 ++ g4 ++ branch-anchors-with-gaps ++ gT ++ T11 ++ post`
(`rebuild`), and the consumption step returns exactly
`s[0 : match.start] ++ (concatenation of the captured gaps, in order)
++ s[match.end :]`: the anchors are deleted and every non-anchor
character of the matched span is preserved verbatim in place. -/
theorem claim4_thm (s : Str) (L : Loc) (h : search s = some L) :
    s = rebuild L
      ∧ (consume_one_invariant s).1
          = L.pre ++ collect_unmatched_groups L ++ L.post :=
  ⟨search_some h, by simp [consume_one_invariant, h, collapse]⟩

/-- The located match of template 2 inside `T0aT1bT5cT6dT11e`, used as
the concrete instance for the C4 witness. -/
def locEx : Loc :=
  ⟨[], ('a' :: []), ('b' :: []), .b2 ('c' :: []), ('d' :: []), ('e' :: [])⟩

/-- C4 witness: the concrete match of template 2 inside
`T0aT1bT5cT6dT11e` with fillers `a`, `b`, `c`, `d` and trailing `e`. -/
theorem claim4_witness :
    search ("T0aT1bT5cT6dT11e").data = some locEx
      ∧ (("T0aT1bT5cT6dT11e").data = rebuild locEx
          ∧ (consume_one_invariant ("T0aT1bT5cT6dT11e").data).1
              = locEx.pre ++ collect_unmatched_groups locEx ++ locEx.post) :=
  ⟨rfl, claim4_thm _ _ rfl⟩

/-- C5.  Every successful consumption step strictly shortens the stream
by at least 2 characters (in fact by at least 11, the combined length of
the deleted anchors), and the number of consuming iterations of the
reduction loop is at most the length of the initial stream; no step
lengthens the stream. -/
theorem claim5_thm (s r : Str) (m : Nat) :
    (consume_one_invariant s = (r, m, true) → r.length + 2 ≤ s.length)
      ∧ reduceSteps s ≤ s.length := by
  constructor
  · intro h
    have := consume_true_length h
    omega
  · exact stepsFuel_le_length _ s

/-- C5 witness: consuming `T0T1T5T6T11` shortens 11 characters to 0, in
one loop iteration. -/
theorem claim5_witness :
    ([] : Str).length + 2 ≤ (("T0T1T5T6T11").data).length
      ∧ reduceSteps ("T0T1T5T6T11").data ≤ (("T0T1T5T6T11").data).length :=
  ⟨(claim5_thm ("T0T1T5T6T11").data [] 2).1 rfl,
    (claim5_thm ("T0T1T5T6T11").data [] 2).2⟩

/-- C6.  When no template can be located in the stream (zero anchors, or
anchors that never complete a template), `check_invariants` returns
normally — the embedding is a total function, mirroring the
exception-free Python code — with `counts = (0, 0, 0)` and residue equal
to the whitespace-trimmed original stream. -/
theorem claim6_thm (s : Str) (h : search s = none) :
    check_invariants s
      = ⟨(pyStrip s).isEmpty, pyStrip s, (0, 0, 0), s.length,
          (pyStrip s).length⟩ :=
  check_invariants_of_search_none h

/-- C6 witness: `"hello"` contains no anchors at all. -/
theorem claim6_witness :
    search ("hello").data = none
      ∧ check_invariants ("hello").data
        = ⟨(pyStrip ("hello").data).isEmpty, pyStrip ("hello").data, (0, 0, 0),
            (("hello").data).length, (pyStrip ("hello").data).length⟩ :=
  ⟨rfl, claim6_thm _ rfl⟩

/-- C7.  The residue is a fixed point of the reduction: running
`check_invariants` on the `leftover_transitions` of a previous run
returns the same residue and `counts = (0, 0, 0)`. -/
theorem claim7_thm (s : Str) :
    (check_invariants ((check_invariants s).leftover_transitions)).leftover_transitions
        = (check_invariants s).leftover_transitions
      ∧ (check_invariants ((check_invariants s).leftover_transitions)).invariant_counts
        = (0, 0, 0) := by
  have hfix : search ((reduceFuel (s.length + 1) s 0 0 0).1) = none :=
    reduceFuel_fixpoint (s.length + 1) s 0 0 0 (Nat.lt_succ_self _)
  have hlo : (check_invariants s).leftover_transitions
      = pyStrip ((reduceFuel (s.length + 1) s 0 0 0).1) := rfl
  have h2 : search ((check_invariants s).leftover_transitions) = none := by
    rw [hlo]
    exact search_pyStrip_none hfix
  rw [check_invariants_of_search_none h2]
  refine ⟨?_, rfl⟩
  show pyStrip ((check_invariants s).leftover_transitions)
      = (check_invariants s).leftover_transitions
  rw [hlo]
  exact pyStrip_idem _

/-- C8.  The result record always satisfies
`leftover_length ≤ log_length`, and the three per-template counts are
non-negative integers (they are natural numbers by construction). -/
theorem claim8_thm (s : Str) :
    (check_invariants s).leftover_length ≤ (check_invariants s).log_length
      ∧ 0 ≤ (check_invariants s).invariant_counts.1
      ∧ 0 ≤ (check_invariants s).invariant_counts.2.1
      ∧ 0 ≤ (check_invariants s).invariant_counts.2.2 := by
  refine ⟨?_, Nat.zero_le _, Nat.zero_le _, Nat.zero_le _⟩
  show (pyStrip ((reduceFuel (s.length + 1) s 0 0 0).1)).length ≤ s.length
  exact Nat.le_trans (pyStrip_length_le _) (reduceFuel_length_le _ s 0 0 0)

/-- C9.  The alternation marker groups are mutually exclusive (the
embedding's `BranchMatch` sum type records exactly one matched branch),
`_detect_invariant` returns a value in `{1, 2, 3}` for every real match
— its `return 0` fallback is unreachable — and every consumed match
increments exactly one counter: the three counts of `check_invariants`
always sum to the number of consuming loop iterations. -/
theorem claim9_thm (s : Str) (b : BranchMatch) :
    (detect_invariant b = 1 ∨ detect_invariant b = 2 ∨ detect_invariant b = 3)
      ∧ (check_invariants s).invariant_counts.1
          + (check_invariants s).invariant_counts.2.1
          + (check_invariants s).invariant_counts.2.2
        = reduceSteps s := by
  refine ⟨detect_invariant_mem b, ?_⟩
  show (reduceFuel (s.length + 1) s 0 0 0).2.1
      + (reduceFuel (s.length + 1) s 0 0 0).2.2.1
      + (reduceFuel (s.length + 1) s 0 0 0).2.2.2
    = stepsFuel (s.length + 1) s
  rw [reduceFuel_counts_sum]
  omega

/-- C10.  On a single-line input (no line-break characters) with no
leading or trailing whitespace, the historical `verify_invariants_text`
and the canonical `check_invariants` agree: `ok = was_fully_consumed`,
`leftover = leftover_transitions` and the counts triples coincide. -/
theorem claim10_thm (t : Str) (hb : ∀ c ∈ t, isLineBreak c = false)
    (hs : pyStrip t = t) :
    verify_invariants_text t
      = ((check_invariants t).was_fully_consumed,
          (check_invariants t).leftover_transitions,
          (check_invariants t).invariant_counts) := by
  unfold verify_invariants_text
  rw [flatten_eq_self hb hs]
  dsimp only
  rw [verifyFuel_eq_reduceFuel]
  rfl

/-- C10 witness: both engines on the single-line stream
`T0T1T2T3T4T11`. -/
theorem claim10_witness :
    (∀ c ∈ ("T0T1T2T3T4T11").data, isLineBreak c = false)
      ∧ pyStrip ("T0T1T2T3T4T11").data = ("T0T1T2T3T4T11").data
      ∧ verify_invariants_text ("T0T1T2T3T4T11").data
        = ((check_invariants ("T0T1T2T3T4T11").data).was_fully_consumed,
            (check_invariants ("T0T1T2T3T4T11").data).leftover_transitions,
            (check_invariants ("T0T1T2T3T4T11").data).invariant_counts) :=
  ⟨by decide, rfl, claim10_thm _ (by decide) rfl⟩

end TInv
